import Mathlib

/-!
# Verification of the page-loader core (src/pageLoader.js)

Shallow embedding of the page-loader utility: URL handling, local file-name
derivation, resource locality classification, output-directory validation,
the HTML resource rewrite pipeline (`processHtml`) and the orchestrator
(`pageLoader`).  Definitions are translated from `src/pageLoader.js`
(the full file appears as `src/unnamed/part_007`); the effectful parts
(network, filesystem) are modelled by explicit oracles and an effect log,
and the external collaborators (the WHATWG URL parser, Node's `path`
module, cheerio's parse/serialize) are modelled on the input fragment this
program exercises, as noted at each definition.
-/

/-! ## Character and string helpers -/

/-- ASCII alphanumeric test, the character class `[a-z0-9]` with the `i`
flag of the JS regexes in `generateFileName`. -/
def isAsciiAlnum (c : Char) : Bool :=
  (('a' ≤ c) && (c ≤ 'z')) || (('A' ≤ c) && (c ≤ 'Z')) || (('0' ≤ c) && (c ≤ '9'))

/-- ASCII lower-casing of one character (used for scheme and host
normalization, which the WHATWG URL parser performs). -/
def lowerAscii (c : Char) : Char :=
  if ('A' ≤ c) && (c ≤ 'Z') then Char.ofNat (c.toNat + 32) else c

/-- Lower-case an entire string (ASCII). -/
def lowerStr (s : String) : String := ⟨s.data.map lowerAscii⟩

/-- Case-insensitive prefix test (for the `/^https?:\/\//i` regex). -/
def startsWithCI (s pre : String) : Bool :=
  (pre.data.map lowerAscii).isPrefixOf (s.data.map lowerAscii)

/-- `s.endsWith t` on the underlying character lists. -/
def endsWithStr (s t : String) : Bool := t.data.isSuffixOf s.data

/-- JS `s.slice(0, -n)` for `0 < n ≤ s.length`: drop the last `n`
characters (empty result when `n` exceeds the length). -/
def dropRightStr (s : String) (n : Nat) : String := ⟨s.data.take (s.data.length - n)⟩

/-- JS `s.split(c)[0]`: the prefix of `s` before the first occurrence of
`c` (all of `s` when `c` does not occur). -/
def splitFirst (c : Char) (s : String) : String := ⟨s.data.takeWhile (· ≠ c)⟩

/-! ## The WHATWG URL model (`new URL` from Node's `url` module)

The program builds URLs with `new URL(input)` and `new URL(input, base)`
and reads `.host`, `.pathname` and `.toString()`.  We model the parser on
the fragment this program exercises: absolute `scheme://authority/path?query`
URLs and path/query-relative references.  Percent-encoding, userinfo,
IPv6 hosts, dot-segment normalization, default-port elision and fragments
are outside the modelled fragment (none of the inputs considered below
use them).  Non-hierarchical URLs (no `//` after the scheme, e.g.
`mailto:`, `data:`) are modelled as unresolvable; in JS they parse with an
empty host, so both the model and JS classify them as not-local and the
program never derives a file name for them. -/

structure JSUrl where
  /-- lower-cased scheme, without the trailing `:` (e.g. `"https"`). -/
  scheme : String
  /-- lower-cased `host`: `hostname` or `hostname:port`. -/
  host : String
  /-- the path, always beginning with `/`. -/
  pathname : String
  /-- `""`, or the query including its leading `?`. -/
  search : String
deriving DecidableEq, Repr

/-- `url.toString()` / `url.href` for the modelled fragment. -/
def JSUrl.toStr (u : JSUrl) : String :=
  u.scheme ++ "://" ++ u.host ++ u.pathname ++ u.search

/-- A valid scheme: `[A-Za-z][A-Za-z0-9+.-]*`. -/
def isSchemeStr (l : List Char) : Bool :=
  match l with
  | [] => false
  | c :: cs =>
    (isAsciiAlnum c && !(('0' ≤ c) && (c ≤ '9'))) &&
      cs.all (fun d => isAsciiAlnum d || d = '+' || d = '-' || d = '.')

/-- Does the string begin with `scheme:`?  (Decides whether JS would treat
it as an absolute URL rather than a relative reference.) -/
def hasScheme (s : String) : Bool :=
  let pre := s.data.takeWhile (· ≠ ':')
  isSchemeStr pre && pre.length < s.data.length

/-- Split a char list at the first character satisfying `p`:
`(before, from-the-hit-on)`. -/
def splitAtFirst (p : Char → Bool) (l : List Char) : List Char × List Char :=
  (l.takeWhile (fun c => !p c), l.dropWhile (fun c => !p c))

/-- `new URL(s)` on an absolute URL of the modelled fragment; `none` where
JS throws `Invalid URL` (no scheme, or `scheme://` with an empty
authority).  The fragment part (`#...`) is not modelled. -/
def parseURL (s : String) : Option JSUrl :=
  let l := s.data
  let sch := l.takeWhile (· ≠ ':')
  if isSchemeStr sch && sch.length < l.length then
    let rest := l.drop (sch.length + 1)
    match rest with
    | '/' :: '/' :: rest2 =>
      let (auth, tail) := splitAtFirst (fun c => c = '/' || c = '?') rest2
      if auth.isEmpty then none
      else
        let (path, query) := splitAtFirst (· = '?') tail
        some { scheme := lowerStr ⟨sch⟩
               host := lowerStr ⟨auth⟩
               pathname := if path.isEmpty then "/" else ⟨path⟩
               search := ⟨query⟩ }
    | _ => none
  else none

/-- The directory part of a pathname: everything up to and including the
last `/` (used for resolving relative path references). -/
def dirOfPath (p : String) : String :=
  ⟨(p.data.reverse.dropWhile (· ≠ '/')).reverse⟩

/-- `new URL(resourceUrl, baseUrl)`: WHATWG relative-reference resolution
on the modelled fragment.  `none` models a thrown `Invalid URL`. -/
def resolveURL (resourceUrl baseUrl : String) : Option JSUrl :=
  if hasScheme resourceUrl then parseURL resourceUrl
  else
    match parseURL baseUrl with
    | none => none
    | some b =>
      let l := resourceUrl.data
      match l with
      | '/' :: '/' :: _ => parseURL (b.scheme ++ ":" ++ resourceUrl)
      | '/' :: _ =>
        let (path, query) := splitAtFirst (· = '?') l
        some { b with pathname := ⟨path⟩, search := ⟨query⟩ }
      | '?' :: _ => some { b with search := resourceUrl }
      | [] => some b
      | _ =>
        let (path, query) := splitAtFirst (· = '?') l
        some { b with pathname := dirOfPath b.pathname ++ ⟨path⟩, search := ⟨query⟩ }

/-! ## Node `path` module helpers -/

/-- Node `path.extname(p)`: the extension of the final path segment, from
its last `.` to the end; `""` when the segment has no `.`, when its only
`.` is the leading character, or when the segment is all dots (`.`, `..`). -/
def extnamePath (p : String) : String :=
  let base := (p.data.splitOn '/').getLastD []
  if base.all (· = '.') then ""
  else
    match ((base.enum.filter (fun ic => ic.2 = '.')).map (·.1)).getLast? with
    | none => ""
    | some 0 => ""
    | some i => ⟨base.drop i⟩

/-- Node `path.join(a, b)` on a host whose separator is `sep`, for the
argument shapes this program produces (nonempty segments that do not
themselves contain a separator): plain concatenation through the
separator.  `sep` is `"/"` on POSIX hosts and `"\\"` on Windows hosts. -/
def pathJoin (sep a b : String) : String := a ++ sep ++ b

/-! ## NameDeriver (src/pageLoader.js lines 34-63) -/

/-- `generateFileName` (line 34): strip a leading `http://`/`https://`
(case-insensitively, the regex `/^https?:\/\//i` replaces only a match at
the start) and replace every character outside `[A-Za-z0-9]` with `-`. -/
def generateFileName (url : String) : String :=
  let urlWithoutProtocol :=
    if startsWithCI url "https://" then ⟨url.data.drop 8⟩
    else if startsWithCI url "http://" then ⟨url.data.drop 7⟩
    else url
  ⟨urlWithoutProtocol.data.map (fun c => if isAsciiAlnum c then c else '-')⟩

/-- `generateHtmlFileName` (line 39). -/
def generateHtmlFileName (url : String) : String := generateFileName url ++ ".html"

/-- `generateFilesDirName` (line 40). -/
def generateFilesDirName (url : String) : String := generateFileName url ++ "_files"

/-- The extension chosen by `getLocalFileName` (lines 50-56): `.html` when
the resolved pathname is empty or `/`, otherwise
`path.extname(pathname.split('?')[0]) || '.html'`. -/
def localExtension (pathname : String) : String :=
  if pathname = "" || pathname = "/" then ".html"
  else
    let e := extnamePath (splitFirst '?' pathname)
    if e = "" then ".html" else e

/-- JS `extension.replace('.', '-')` (line 58).  `replace` with a string
pattern replaces only the first occurrence; every extension that reaches
this point contains exactly one `.`, its leading character (it is either
`.html` or a nonempty `path.extname` result, which runs from the last dot
of the segment). -/
def extHyphenForm (extension : String) : String := "-" ++ ⟨extension.data.drop 1⟩

/-- `getLocalFileName` (lines 42-63): resolve the resource URL against the
base, hyphenate the scheme-stripped absolute URL, pick an extension from
the resolved pathname, strip a trailing hyphenated copy of that extension
from the hyphenated name if present (lines 58-60), and append the
extension.  `none` models the `new URL` throw on an unresolvable input
(callers only reach this function for resolvable, local references). -/
def getLocalFileName (resourceUrl baseUrl : String) : Option String :=
  match resolveURL resourceUrl baseUrl with
  | none => none
  | some u =>
    let fullUrl := u.toStr
    let fileName := generateFileName fullUrl
    let extension := localExtension u.pathname
    let fileName :=
      if endsWithStr fileName (extHyphenForm extension)
      then dropRightStr fileName extension.data.length
      else fileName
    some (fileName ++ extension)

/-- The claim's (and spec §4.1's) description of `deriveResourceFileName`,
stated as written: the base name of the resolved absolute URL with the
derived extension appended, and *nothing stripped from the base name
before appending*.  Kept separate from `getLocalFileName` so the two can
be compared. -/
def specResourceFileName (resourceUrl baseUrl : String) : Option String :=
  match resolveURL resourceUrl baseUrl with
  | none => none
  | some u => some (generateFileName u.toStr ++ localExtension u.pathname)

/-- The amended description: as `specResourceFileName`, but when the
hyphenated base name already ends with the hyphenated form of the derived
extension, those trailing characters are stripped before the extension is
appended. -/
def amendedResourceFileName (resourceUrl baseUrl : String) : Option String :=
  match resolveURL resourceUrl baseUrl with
  | none => none
  | some u =>
    let base := generateFileName u.toStr
    let extension := localExtension u.pathname
    if endsWithStr base (extHyphenForm extension)
    then some (dropRightStr base extension.data.length ++ extension)
    else some (base ++ extension)

/-! ## LocalityClassifier (src/pageLoader.js lines 65-73) -/

/-- `isLocalResource` (lines 65-73): resolve the resource URL against the
page URL and compare hosts; any `new URL` throw is caught and classified
as `false`. -/
def isLocalResource (resourceUrl pageUrl : String) : Bool :=
  match resolveURL resourceUrl pageUrl, parseURL pageUrl with
  | some r, some p => r.host == p.host
  | _, _ => false

/-! ## The parsed-document model (cheerio)

cheerio gives `processHtml` a parsed document supporting tag/attribute
queries (`$(selector).each`), attribute reads (`$(el).attr(name)`) and
in-place attribute writes (`$(el).attr(name, value)`), plus
serialization (`$.html()`).  We model the document as the in-order list
of its nodes (element nesting is immaterial to this program: selectors
match by tag/attribute only, and each match is handled through its own
element handle, here its index in the list). -/

/-- One element: lower-cased tag name and its attribute list in source
order (the HTML parser drops duplicate attribute names, so keys are
distinct). -/
structure Element where
  tag : String
  attrs : List (String × String)
deriving DecidableEq, Repr

/-- A document node: text or an element. -/
inductive Node where
  | text (s : String)
  | elem (e : Element)
deriving DecidableEq, Repr

/-- First-match lookup in an attribute list (the DOM holds at most one
attribute per name; the parser collapses duplicates). -/
def lookupAttr : List (String × String) → String → Option String
  | [], _ => none
  | p :: rest, name => if p.1 = name then some p.2 else lookupAttr rest name

/-- Set the named attribute's value in an attribute list, appending it
when absent. -/
def upsertAttr : List (String × String) → String → String → List (String × String)
  | [], name, v => [(name, v)]
  | p :: rest, name, v =>
    if p.1 = name then (p.1, v) :: rest else p :: upsertAttr rest name v

/-- `$(el).attr(name)`: the element's attribute value, `none` when the
attribute is absent (JS `undefined`). -/
def getAttr (e : Element) (name : String) : Option String :=
  lookupAttr e.attrs name

/-- `$(el).attr(name, value)`: set an existing attribute's value, or add
the attribute when absent. -/
def setAttr (e : Element) (name v : String) : Element :=
  ⟨e.tag, upsertAttr e.attrs name v⟩

/-- The attribute `a` of the element at index `i` of the node list
(`none` when the index is out of range, a text node, or the attribute is
absent). -/
def getAttrAt (nodes : List Node) (i : Nat) (a : String) : Option String :=
  match nodes[i]? with
  | some (.elem e) => getAttr e a
  | _ => none

/-- Mutate the element handle at index `i`: set attribute `name` to `v`. -/
def setAttrAt (nodes : List Node) (i : Nat) (name v : String) : List Node :=
  match nodes, i with
  | [], _ => []
  | n :: rest, 0 =>
    (match n with
     | .elem e => Node.elem (setAttr e name v)
     | t => t) :: rest
  | n :: rest, i + 1 => n :: setAttrAt rest i name v

/-! ## DocumentRewriter: scan (src/pageLoader.js lines 75-80, 139-151) -/

/-- The four selectors of `resourceTags` (lines 75-80). -/
inductive Sel where
  | img | linkStylesheet | linkCanonical | script
deriving DecidableEq, Repr

/-- CSS selector matching for the four selectors used:
`img`, `link[rel="stylesheet"]`, `link[rel="canonical"]`, `script`. -/
def matchesSel : Sel → Element → Bool
  | .img, e => e.tag == "img"
  | .linkStylesheet, e => e.tag == "link" && getAttr e "rel" == some "stylesheet"
  | .linkCanonical, e => e.tag == "link" && getAttr e "rel" == some "canonical"
  | .script, e => e.tag == "script"

/-- `resourceTags` (lines 75-80): selector and attribute name, in source
order. -/
def resourceTags : List (Sel × String) :=
  [(.img, "src"), (.linkStylesheet, "href"), (.linkCanonical, "href"), (.script, "src")]

/-- One scanned reference (lines 143-148): the element handle (index into
the node list), the attribute name, and the raw attribute value. -/
structure Resource where
  idx : Nat
  attrName : String
  url : String
deriving DecidableEq, Repr

/-- `$(selector).each` over the nodes from index `start` on (lines
140-150): collect each element matching `sel` whose attribute `a` is
present, non-empty (JS truthiness of `attrValue`) and classified local. -/
def scanSelAux (sel : Sel) (a : String) (baseUrl : String) :
    Nat → List Node → List Resource
  | _, [] => []
  | start, .text _ :: rest => scanSelAux sel a baseUrl (start + 1) rest
  | start, .elem e :: rest =>
    (if matchesSel sel e then
       match getAttr e a with
       | some v =>
         if v ≠ "" && isLocalResource v baseUrl then [⟨start, a, v⟩] else []
       | none => []
     else []) ++ scanSelAux sel a baseUrl (start + 1) rest

/-- The scan for one entry of `resourceTags`, over the whole document. -/
def scanSel (sel : Sel) (a : String) (baseUrl : String) (nodes : List Node) :
    List Resource :=
  scanSelAux sel a baseUrl 0 nodes

/-- The full scan (lines 139-151): `resourceTags.forEach` pushes the
matches of each selector in turn, each in document order. -/
def scanResources (nodes : List Node) (baseUrl : String) : List Resource :=
  (resourceTags.map (fun p => scanSel p.1 p.2 baseUrl nodes)).flatten

/-! ## ResourceFetcher (src/pageLoader.js lines 119-133)

`downloadResource` resolves the full URL, issues the GET (success is a
status in `[200, 400)` with no transport error) and writes the bytes to
`outputDir/fileName`.  The network and the resource-file writes are
modelled by one oracle `op : String → Bool` mapping the full resolved URL
to the success of the whole fetch-and-save operation; an oracle failure
covers every per-resource failure mode of the source (HTTP error status,
transport error, write error). -/

/-- `downloadResource` (lines 119-133): `some fileName` when the fetch and
save succeed, `none` on any per-resource failure. -/
def downloadResource (resourceUrl baseUrl : String) (op : String → Bool) :
    Option String :=
  match resolveURL resourceUrl baseUrl, getLocalFileName resourceUrl baseUrl with
  | some u, some fileName => if op u.toStr then some fileName else none
  | _, _ => none

/-! ## DocumentRewriter: rewrite and result (lines 135-173) -/

/-- Apply the settled download outcomes to the document (lines 159-171):
each success sets its element's attribute to
`path.join(resourcesDir, localFileName)`; each failure leaves its element
untouched.  The element handles of distinct references are distinct, so
the rewrites commute and are applied here in launch order. -/
def applyOutcomes (resourcesDir sep : String)
    (nodes : List Node) (outs : List (Resource × Option String)) : List Node :=
  outs.foldl
    (fun ns p =>
      match p.2 with
      | some fileName => setAttrAt ns p.1.idx p.1.attrName (pathJoin sep resourcesDir fileName)
      | none => ns)
    nodes

/-- The observable outcome of `processHtml`: the rewritten document, the
`fs.mkdir` call for the resources directory, the full URLs fetched (one
per scanned reference, in launch order) and the resource files written
(their names inside the resources directory, one per successful
download). -/
structure ProcResult where
  nodes : List Node
  mkdirCalled : Bool
  attempts : List String
  written : List String
deriving Repr

/-- `processHtml` on an already-parsed document (lines 135-173): scan for
local references; with none, return the document unchanged and touch
nothing; otherwise create the resources directory, run every download
(failures are caught per reference and never abort a sibling: line
165-168), rewrite the successes and keep the rest. -/
def processHtmlNodes (nodes : List Node) (baseUrl resourcesDir sep : String)
    (op : String → Bool) : ProcResult :=
  let resources := scanResources nodes baseUrl
  if resources.isEmpty then ⟨nodes, false, [], []⟩
  else
    let outs := resources.map (fun r => (r, downloadResource r.url baseUrl op))
    { nodes := applyOutcomes resourcesDir sep nodes outs
      mkdirCalled := true
      attempts := resources.filterMap (fun r => (resolveURL r.url baseUrl).map JSUrl.toStr)
      written := outs.filterMap (·.2) }

/-- The resources directory contents after all writes settle: one file per
distinct written path (a second write to the same name overwrites the
first file). -/
def dirContents (written : List String) : List String := written.dedup

/-! ## cheerio load and serialize

`cheerio.load(html)` parses with parse5 in document mode; `$.html()`
serializes the resulting document.  parse5 always normalizes the parse
into a full document carrying the `html`/`head`/`body` skeleton, so
`$.html()` emits that skeleton even when the input bytes lacked it.  The
tokenizer below is a flat model of the parse (tags, attributes and text
runs, without nesting); the serializer is evaluated at the byte level only
on the empty document, where the skeleton alone is emitted. -/

/-- HTML whitespace. -/
def isHtmlSpace (c : Char) : Bool := c = ' ' || c = '\n' || c = '\t' || c = '\r'

/-- Parse the attribute list inside a tag (the characters after the tag
name and before `>`): `name="value"` pairs and bare attributes; attribute
names are lower-cased by the parser. -/
def parseAttrsAux : Nat → List Char → List (String × String)
  | 0, _ => []
  | _, [] => []
  | fuel + 1, c :: cs =>
    if isHtmlSpace c || c = '/' then parseAttrsAux fuel cs
    else
      let name := (c :: cs).takeWhile (fun d => !isHtmlSpace d && d ≠ '=' && d ≠ '/')
      let rest := (c :: cs).drop name.length
      match rest with
      | '=' :: '"' :: r2 =>
        let v := r2.takeWhile (· ≠ '"')
        (⟨name.map lowerAscii⟩, (⟨v⟩ : String)) :: parseAttrsAux fuel (r2.drop (v.length + 1))
      | _ => (⟨name.map lowerAscii⟩, "") :: parseAttrsAux fuel rest

/-- Flat tokenizer for `cheerio.load`: emits elements (opening tags, with
tag names lower-cased) and text runs; closing tags and `<!...>` markup are
consumed without emitting a node. -/
def tokenizeAux : Nat → List Char → List Node
  | 0, _ => []
  | _, [] => []
  | fuel + 1, '<' :: cs =>
    match cs with
    | '/' :: cs2 => tokenizeAux fuel ((cs2.dropWhile (· ≠ '>')).drop 1)
    | '!' :: cs2 => tokenizeAux fuel ((cs2.dropWhile (· ≠ '>')).drop 1)
    | _ =>
      let name := cs.takeWhile isAsciiAlnum
      if name.isEmpty then Node.text "<" :: tokenizeAux fuel cs
      else
        let inTag := (cs.drop name.length).takeWhile (· ≠ '>')
        let rest := ((cs.drop name.length).dropWhile (· ≠ '>')).drop 1
        Node.elem ⟨⟨name.map lowerAscii⟩, parseAttrsAux inTag.length inTag⟩ ::
          tokenizeAux fuel rest
  | fuel + 1, c :: cs =>
    let t := (c :: cs).takeWhile (· ≠ '<')
    Node.text ⟨t⟩ :: tokenizeAux fuel ((c :: cs).drop t.length)

/-- `cheerio.load(html)` as the flat node list of the document. -/
def cheerioLoad (html : String) : List Node :=
  tokenizeAux (html.data.length + 1) html.data

/-- Serialize one node. -/
def renderNode : Node → String
  | .text s => s
  | .elem e =>
    "<" ++ e.tag ++
      String.join (e.attrs.map (fun p => " " ++ p.1 ++ "=\x22" ++ p.2 ++ "\x22")) ++ ">"

/-- `$.html()`: serialize the document, always emitting the
`html`/`head`/`body` skeleton parse5 normalized the parse into. -/
def cheerioHtml (nodes : List Node) : String :=
  "<html><head></head><body>" ++ String.join (nodes.map renderNode) ++ "</body></html>"

/-- `processHtml` (lines 135-173) on the raw fetched markup. -/
def processHtml (html baseUrl resourcesDir sep : String) (op : String → Bool) :
    ProcResult :=
  processHtmlNodes (cheerioLoad html) baseUrl resourcesDir sep op

/-! ## Output-directory validation (src/pageLoader.js lines 82-117) -/

/-- What the filesystem reports about the output path: existence
(`fs.access F_OK`), writability (`fs.access W_OK`) and whether it is a
directory (`fs.stat(...).isDirectory()`). -/
structure DirStatus where
  present : Bool
  writable : Bool
  isDir : Bool
deriving DecidableEq, Repr

/-- The `code` of the `FileSystemError` raised by
`validateOutputDirectory` (the spec's `InvalidOutputTarget` sub-causes). -/
inductive VError where
  | enoent | eacces | enotdir
deriving DecidableEq, Repr

/-- `validateOutputDirectory` (lines 82-117): `fs.access(F_OK)` failure
raises `ENOENT`; then `fs.access(W_OK)` failure raises `EACCES`; then a
non-directory `fs.stat` raises `ENOTDIR` (the stat block's own `catch`
re-wraps that error's message but keeps the code `ENOTDIR`). -/
def validateOutputDirectory (d : DirStatus) : Except VError Unit :=
  if !d.present then .error .enoent
  else if !d.writable then .error .eacces
  else if !d.isDir then .error .enotdir
  else .ok ()

/-! ## PageLoader orchestrator (src/pageLoader.js lines 175-244) -/

/-- The outcome of the root-page GET (lines 189-196): the response body on
a `[200, 400)` status, or the failure cause distinguished by the `catch`
at lines 196-226. -/
inductive RootOutcome where
  | ok (html : String)
  | httpError (status : Nat)
  | hostNotFound
  | connRefused
  | timedOut
  | transportOther
deriving DecidableEq, Repr

/-- The `NetworkError` `(code, statusCode)` the root-fetch `catch` (lines
196-226) raises for each failure cause; `none` for a successful fetch. -/
def rootFailCode : RootOutcome → Option (String × Option Nat)
  | .ok _ => none
  | .httpError status => some ("HTTP_ERROR", some status)
  | .hostNotFound => some ("ENOTFOUND", none)
  | .connRefused => some ("ECONNREFUSED", none)
  | .timedOut => some ("ETIMEDOUT", none)
  | .transportOther => some ("NETWORK_ERROR", none)

/-- The errors `pageLoader` can raise: `PageLoaderError` with code
`INVALID_URL` (line 181), a `FileSystemError` from output-directory
validation (the spec's `InvalidOutputTarget`), or a `NetworkError` from
the root fetch (the spec's `DocumentFetchFailed`). -/
inductive PLError where
  | invalidUrl
  | fsError (code : VError)
  | network (code : String) (status : Option Nat)
deriving DecidableEq, Repr

/-- The environment of one run: the output directory's status, the root
fetch outcome for the requested URL, the per-resource operation oracle
(full resolved URL to fetch-and-save success) and the platform's path
separator. -/
structure World where
  dir : DirStatus
  root : RootOutcome
  op : String → Bool
  sep : String

/-- The externally visible effects of a run: whether the root GET was
issued, whether `fs.mkdir` was called for the resources directory, the
resource URLs fetched, the resource files written, and the final HTML
write (path and bytes). -/
structure RunLog where
  rootFetchAttempted : Bool
  mkdirCalled : Bool
  attempts : List String
  written : List String
  htmlWritten : Option (String × String)
deriving DecidableEq, Repr

/-- The log of a run that performed no effect at all. -/
def emptyLog : RunLog := ⟨false, false, [], [], none⟩

deriving instance DecidableEq for Except

/-- A run's result (the returned path or the raised error) together with
its effect log. -/
structure RunResult where
  result : Except PLError String
  log : RunLog
deriving DecidableEq, Repr

/-- `pageLoader` (lines 175-244): validate the URL with `new URL(url)`
(any parseable absolute URL passes — there is no scheme check), validate
the output directory, fetch the root page, rewrite resources via
`processHtml`, and persist the rewritten serialization to
`outputDir/<name>.html` (the final write is modelled as succeeding; its
failure mode is outside the claims considered here). -/
def pageLoader (url outputDir : String) (w : World) : RunResult :=
  match parseURL url with
  | none => ⟨.error .invalidUrl, emptyLog⟩
  | some _ =>
    match validateOutputDirectory w.dir with
    | .error c => ⟨.error (.fsError c), emptyLog⟩
    | .ok _ =>
      match w.root with
      | .ok html =>
        let htmlFileName := generateHtmlFileName url
        let htmlFilePath := pathJoin w.sep outputDir htmlFileName
        let filesDirName := generateFilesDirName url
        let pr := processHtml html url filesDirName w.sep w.op
        { result := .ok htmlFilePath
          log := { rootFetchAttempted := true
                   mkdirCalled := pr.mkdirCalled
                   attempts := pr.attempts
                   written := pr.written
                   htmlWritten := some (htmlFilePath, cheerioHtml pr.nodes) } }
      | failure =>
        match rootFailCode failure with
        | some (code, status) =>
          ⟨.error (.network code status), { emptyLog with rootFetchAttempted := true }⟩
        | none => ⟨.error (.network "NETWORK_ERROR" none), { emptyLog with rootFetchAttempted := true }⟩


/-! ## Concrete fixtures used by the claim instances below -/

/-- An oracle under which every resource operation succeeds. -/
def alwaysOk : String → Bool := fun _ => true

/-- The page URL of the concrete scenarios (as in the repository's own
tests). -/
def pageBase : String := "https://example.com/page"

/-- A document with one local image reference. -/
def oneImgDoc : List Node := [.elem ⟨"img", [("src", "/a.png")]⟩]

/-- A document with two references carrying the same attribute value. -/
def dupImgDoc : List Node :=
  [.elem ⟨"img", [("src", "/a.png")]⟩, .elem ⟨"img", [("src", "/a.png")]⟩]

/-- A fully valid output directory. -/
def okDir : DirStatus := ⟨true, true, true⟩

/-- A world where everything succeeds and the root page body is empty. -/
def okWorld : World := ⟨okDir, .ok "", alwaysOk, "/"⟩

/-- A world where the root fetch returns HTTP 404. -/
def notFoundWorld : World := ⟨okDir, .httpError 404, alwaysOk, "/"⟩

/-! ## Lemmas: attribute lookup after `setAttr` -/

theorem lookupAttr_upsertAttr_self (a v : String) :
    ∀ l : List (String × String), lookupAttr (upsertAttr l a v) a = some v := by
  intro l
  induction l with
  | nil => simp [upsertAttr, lookupAttr]
  | cons p rest ih =>
    by_cases hp : p.1 = a
    · simp [upsertAttr, lookupAttr, hp]
    · simp [upsertAttr, lookupAttr, hp, ih]

theorem lookupAttr_upsertAttr_other (a b v : String) (hba : b ≠ a) :
    ∀ l : List (String × String), lookupAttr (upsertAttr l a v) b = lookupAttr l b := by
  intro l
  induction l with
  | nil =>
    have : a ≠ b := fun h => hba h.symm
    simp [upsertAttr, lookupAttr, this]
  | cons p rest ih =>
    by_cases hp : p.1 = a
    · have hab : a ≠ b := fun h => hba h.symm
      simp [upsertAttr, lookupAttr, hp, hab]
    · by_cases hpb : p.1 = b
      · simp [upsertAttr, lookupAttr, hp, hpb, hba]
      · simp [upsertAttr, lookupAttr, hp, hpb, ih]

/-- Setting attribute `a` makes `getAttr _ a` return the new value. -/
theorem getAttr_setAttr_self (e : Element) (a v : String) :
    getAttr (setAttr e a v) a = some v :=
  lookupAttr_upsertAttr_self a v e.attrs

/-- Setting attribute `a` leaves every other attribute unchanged. -/
theorem getAttr_setAttr_other (e : Element) (a b v : String) (hba : b ≠ a) :
    getAttr (setAttr e a v) b = getAttr e b :=
  lookupAttr_upsertAttr_other a b v hba e.attrs

/-! ## Lemmas: `setAttrAt` and `getAttrAt` -/

theorem getElem?_setAttrAt_ne (a v : String) :
    ∀ (ns : List Node) (i j : Nat), j ≠ i → (setAttrAt ns i a v)[j]? = ns[j]?
  | [], _, _, _ => by simp [setAttrAt]
  | n :: rest, 0, 0, h => absurd rfl h
  | n :: rest, 0, j + 1, _ => by simp [setAttrAt]
  | n :: rest, i + 1, 0, _ => by simp [setAttrAt]
  | n :: rest, i + 1, j + 1, h => by
    simp only [setAttrAt, List.getElem?_cons_succ]
    exact getElem?_setAttrAt_ne a v rest i j (fun hji => h (by omega))

theorem getElem?_setAttrAt_self (a v : String) :
    ∀ (ns : List Node) (i : Nat),
      (setAttrAt ns i a v)[i]? = (ns[i]?).map (fun n =>
        match n with
        | .elem e => Node.elem (setAttr e a v)
        | t => t)
  | [], _ => by simp [setAttrAt]
  | n :: rest, 0 => by cases n <;> simp [setAttrAt]
  | n :: rest, i + 1 => by
    simp only [setAttrAt, List.getElem?_cons_succ]
    exact getElem?_setAttrAt_self a v rest i

theorem getAttrAt_setAttrAt_self (ns : List Node) (i : Nat) (a v : String)
    (e : Element) (he : ns[i]? = some (.elem e)) :
    getAttrAt (setAttrAt ns i a v) i a = some v := by
  unfold getAttrAt
  rw [getElem?_setAttrAt_self, he]
  simp [getAttr_setAttr_self]

theorem getAttrAt_setAttrAt_ne_idx (ns : List Node) (i j : Nat) (a b v : String)
    (h : j ≠ i) : getAttrAt (setAttrAt ns i a v) j b = getAttrAt ns j b := by
  unfold getAttrAt
  rw [getElem?_setAttrAt_ne a v ns i j h]

theorem getAttrAt_setAttrAt_ne_attr (ns : List Node) (i : Nat) (a b v : String)
    (h : b ≠ a) : getAttrAt (setAttrAt ns i a v) i b = getAttrAt ns i b := by
  unfold getAttrAt
  rw [getElem?_setAttrAt_self]
  cases hns : ns[i]? with
  | none => simp
  | some n => cases n <;> simp [getAttr_setAttr_other _ _ _ _ h]

/-- The element-handle property is preserved by `setAttrAt`. -/
theorem isElem_setAttrAt (ns : List Node) (i j : Nat) (a v : String) (e : Element)
    (he : ns[i]? = some (.elem e)) :
    ∃ e', (setAttrAt ns j a v)[i]? = some (.elem e') := by
  by_cases hij : i = j
  · subst hij
    rw [getElem?_setAttrAt_self, he]
    exact ⟨setAttr e a v, rfl⟩
  · rw [getElem?_setAttrAt_ne a v ns j i hij]
    exact ⟨e, he⟩

/-! ## Lemmas: `applyOutcomes` -/

theorem applyOutcomes_append (resourcesDir sep : String) (ns : List Node)
    (outs1 outs2 : List (Resource × Option String)) :
    applyOutcomes resourcesDir sep ns (outs1 ++ outs2) =
      applyOutcomes resourcesDir sep (applyOutcomes resourcesDir sep ns outs1) outs2 := by
  unfold applyOutcomes
  exact List.foldl_append _ _ _ _

/-- An outcome list none of whose entries targets `(i, a)` with a success
leaves the attribute `(i, a)` unchanged. -/
theorem applyOutcomes_untouched (resourcesDir sep : String) (i : Nat) (a : String) :
    ∀ (outs : List (Resource × Option String)) (ns : List Node),
      (∀ p ∈ outs, p.1.idx ≠ i ∨ p.1.attrName ≠ a ∨ p.2 = none) →
      getAttrAt (applyOutcomes resourcesDir sep ns outs) i a = getAttrAt ns i a := by
  intro outs
  induction outs with
  | nil => intro ns _; rfl
  | cons p rest ih =>
    intro ns h
    have hrest : ∀ q ∈ rest, q.1.idx ≠ i ∨ q.1.attrName ≠ a ∨ q.2 = none :=
      fun q hq => h q (List.mem_cons_of_mem p hq)
    rcases hp : p.2 with _ | n
    · have : applyOutcomes resourcesDir sep ns (p :: rest) =
          applyOutcomes resourcesDir sep ns rest := by
        unfold applyOutcomes
        simp [List.foldl_cons, hp]
      rw [this]
      exact ih ns hrest
    · have hstep : applyOutcomes resourcesDir sep ns (p :: rest) =
          applyOutcomes resourcesDir sep
            (setAttrAt ns p.1.idx p.1.attrName (pathJoin sep resourcesDir n)) rest := by
        unfold applyOutcomes
        simp [List.foldl_cons, hp]
      rw [hstep, ih _ hrest]
      rcases h p (List.mem_cons_self p rest) with hidx | hattr | hnone
      · exact getAttrAt_setAttrAt_ne_idx _ _ _ _ _ _ (fun hh => hidx hh.symm)
      · by_cases hidx : i = p.1.idx
        · rw [hidx]
          exact getAttrAt_setAttrAt_ne_attr _ _ _ _ _ (fun hh => hattr hh.symm)
        · exact getAttrAt_setAttrAt_ne_idx _ _ _ _ _ _ hidx
      · rw [hp] at hnone; cases hnone

/-- Element handles survive `applyOutcomes`. -/
theorem isElem_applyOutcomes (resourcesDir sep : String) (i : Nat) :
    ∀ (outs : List (Resource × Option String)) (ns : List Node) (e : Element),
      ns[i]? = some (.elem e) →
      ∃ e', (applyOutcomes resourcesDir sep ns outs)[i]? = some (.elem e') := by
  intro outs
  induction outs with
  | nil => intro ns e he; exact ⟨e, he⟩
  | cons p rest ih =>
    intro ns e he
    rcases hp : p.2 with _ | n
    · have : applyOutcomes resourcesDir sep ns (p :: rest) =
          applyOutcomes resourcesDir sep ns rest := by
        unfold applyOutcomes
        simp [List.foldl_cons, hp]
      rw [this]
      exact ih ns e he
    · have hstep : applyOutcomes resourcesDir sep ns (p :: rest) =
          applyOutcomes resourcesDir sep
            (setAttrAt ns p.1.idx p.1.attrName (pathJoin sep resourcesDir n)) rest := by
        unfold applyOutcomes
        simp [List.foldl_cons, hp]
      rw [hstep]
      rcases isElem_setAttrAt ns i p.1.idx p.1.attrName
          (pathJoin sep resourcesDir n) e he with ⟨e', he'⟩
      exact ih _ e' he'

/-- An outcome list containing a success for reference `r`, with no later
entry touching `r`'s element handle, rewrites `r`'s attribute to the
joined local path. -/
theorem applyOutcomes_hit (resourcesDir sep : String) (r : Resource) (n : String)
    (outs1 outs2 : List (Resource × Option String)) (ns : List Node) (e : Element)
    (he : ns[r.idx]? = some (.elem e))
    (h2 : ∀ p ∈ outs2, p.1.idx ≠ r.idx) :
    getAttrAt (applyOutcomes resourcesDir sep ns (outs1 ++ (r, some n) :: outs2))
      r.idx r.attrName = some (pathJoin sep resourcesDir n) := by
  rw [applyOutcomes_append]
  rcases isElem_applyOutcomes resourcesDir sep r.idx outs1 ns e he with ⟨e1, he1⟩
  have hstep : applyOutcomes resourcesDir sep (applyOutcomes resourcesDir sep ns outs1)
      ((r, some n) :: outs2) =
      applyOutcomes resourcesDir sep
        (setAttrAt (applyOutcomes resourcesDir sep ns outs1) r.idx r.attrName
          (pathJoin sep resourcesDir n)) outs2 := by
    unfold applyOutcomes
    simp [List.foldl_cons]
  rw [hstep]
  rw [applyOutcomes_untouched resourcesDir sep r.idx r.attrName outs2 _
    (fun p hp => Or.inl (h2 p hp))]
  exact getAttrAt_setAttrAt_self _ _ _ _ e1 he1

/-! ## Lemmas: the resource scan -/

/-- The per-element head of the scan is empty or the one reference built
from a matching element with a non-empty, local attribute value. -/
theorem scanHead_cases (sel : Sel) (a baseUrl : String) (e0 : Element) (start : Nat) :
    (if matchesSel sel e0 then
        match getAttr e0 a with
        | some v =>
          if v ≠ "" && isLocalResource v baseUrl then
            [({ idx := start, attrName := a, url := v } : Resource)]
          else []
        | none => []
      else ([] : List Resource)) = [] ∨
    ∃ v, matchesSel sel e0 = true ∧ getAttr e0 a = some v ∧ v ≠ "" ∧
      isLocalResource v baseUrl = true ∧
      (if matchesSel sel e0 then
        match getAttr e0 a with
        | some v =>
          if v ≠ "" && isLocalResource v baseUrl then
            [({ idx := start, attrName := a, url := v } : Resource)]
          else []
        | none => []
      else ([] : List Resource)) = [{ idx := start, attrName := a, url := v }] := by
  split
  · split
    · split
      · rename_i hm x v hv hc
        rcases (by simpa using hc : v ≠ "" ∧ isLocalResource v baseUrl = true) with
          ⟨hne, hloc⟩
        exact Or.inr ⟨v, hm, hv, hne, hloc, rfl⟩
      · exact Or.inl rfl
    · exact Or.inl rfl
  · exact Or.inl rfl

theorem mem_scanSelAux (sel : Sel) (a baseUrl : String) :
    ∀ (ns : List Node) (start : Nat) (r : Resource),
      r ∈ scanSelAux sel a baseUrl start ns →
      ∃ j e, r.idx = start + j ∧ ns[j]? = some (.elem e) ∧
        matchesSel sel e = true ∧ getAttr e a = some r.url ∧
        r.attrName = a ∧ r.url ≠ "" ∧ isLocalResource r.url baseUrl = true := by
  intro ns
  induction ns with
  | nil => intro start r hr; simp [scanSelAux] at hr
  | cons n rest ih =>
    intro start r hr
    cases n with
    | text s =>
      rcases ih (start + 1) r (by simpa [scanSelAux] using hr) with
        ⟨j, e, hidx, hget, hms, hga, han, hne, hloc⟩
      exact ⟨j + 1, e, by omega, by simpa using hget, hms, hga, han, hne, hloc⟩
    | elem e0 =>
      rw [scanSelAux] at hr
      rcases List.mem_append.mp hr with hl | hrr
      · rcases scanHead_cases sel a baseUrl e0 start with hemp | ⟨v, hm, hv, hne, hloc, heq⟩
        · rw [hemp] at hl; simp at hl
        · rw [heq] at hl
          rcases List.mem_singleton.mp hl with rfl
          exact ⟨0, e0, by simp, by simp, hm, hv, rfl, hne, hloc⟩
      · rcases ih (start + 1) r hrr with ⟨j, e, hidx, hget, hms, hga, han, hne, hloc⟩
        exact ⟨j + 1, e, by omega, by simpa using hget, hms, hga, han, hne, hloc⟩

theorem scanSelAux_pairwise_lt (sel : Sel) (a baseUrl : String) :
    ∀ (ns : List Node) (start : Nat),
      (scanSelAux sel a baseUrl start ns).Pairwise (fun x y => x.idx < y.idx) := by
  intro ns
  induction ns with
  | nil => intro start; simp [scanSelAux]
  | cons n rest ih =>
    intro start
    cases n with
    | text s => simpa [scanSelAux] using ih (start + 1)
    | elem e0 =>
      rw [scanSelAux]
      apply List.pairwise_append.mpr
      refine ⟨?_, ih (start + 1), ?_⟩
      · rcases scanHead_cases sel a baseUrl e0 start with hemp | ⟨v, _, _, _, _, heq⟩
        · rw [hemp]; simp
        · rw [heq]; simp
      · intro x hx y hy
        rcases mem_scanSelAux sel a baseUrl rest (start + 1) y hy with ⟨j, e, hidx, _⟩
        rcases scanHead_cases sel a baseUrl e0 start with hemp | ⟨v, _, _, _, _, heq⟩
        · rw [hemp] at hx; simp at hx
        · rw [heq] at hx
          rcases List.mem_singleton.mp hx with rfl
          show start < y.idx
          omega

/-- No element matches two distinct selectors of `resourceTags`. -/
theorem matchesSel_excl (s t : Sel) (e : Element) (hst : s ≠ t)
    (hs : matchesSel s e = true) (ht : matchesSel t e = true) : False := by
  cases s <;> cases t <;> simp_all [matchesSel]

theorem scanSel_mem_props (s : Sel) (a baseUrl : String) (ns : List Node)
    (r : Resource) (hr : r ∈ scanSel s a baseUrl ns) :
    ∃ e, ns[r.idx]? = some (.elem e) ∧ matchesSel s e = true ∧
      getAttr e r.attrName = some r.url ∧ r.url ≠ "" ∧
      isLocalResource r.url baseUrl = true := by
  rcases mem_scanSelAux s a baseUrl ns 0 r hr with
    ⟨j, e, hidx, hget, hms, hga, han, hne, hloc⟩
  have hj : r.idx = j := by omega
  rw [hj, han]
  exact ⟨e, hget, hms, hga, hne, hloc⟩

theorem scanSel_cross_ne (s t : Sel) (hst : s ≠ t) (a b baseUrl : String)
    (ns : List Node) (r r' : Resource)
    (hr : r ∈ scanSel s a baseUrl ns) (hr' : r' ∈ scanSel t b baseUrl ns) :
    r.idx ≠ r'.idx := by
  rcases scanSel_mem_props s a baseUrl ns r hr with ⟨e, hget, hms, _⟩
  rcases scanSel_mem_props t b baseUrl ns r' hr' with ⟨e2, hget2, hms2, _⟩
  intro hidx
  rw [hidx, hget2] at hget
  obtain he := Node.elem.inj (Option.some.inj hget)
  subst he
  exact matchesSel_excl s t _ hst hms hms2

theorem scanResources_eq (nodes : List Node) (baseUrl : String) :
    scanResources nodes baseUrl =
      scanSel .img "src" baseUrl nodes ++
      (scanSel .linkStylesheet "href" baseUrl nodes ++
      (scanSel .linkCanonical "href" baseUrl nodes ++
       scanSel .script "src" baseUrl nodes)) := by
  simp [scanResources, resourceTags]

/-- Distinct scanned references always hold distinct element handles: the
four selectors are mutually exclusive and each selector visits each
element once. -/
theorem scanResources_pairwise (nodes : List Node) (baseUrl : String) :
    (scanResources nodes baseUrl).Pairwise (fun x y => x.idx ≠ y.idx) := by
  rw [scanResources_eq]
  have W : ∀ (s : Sel) (a : String),
      (scanSel s a baseUrl nodes).Pairwise (fun x y => x.idx ≠ y.idx) :=
    fun s a => (scanSelAux_pairwise_lt s a baseUrl nodes 0).imp (fun h => Nat.ne_of_lt h)
  have X : ∀ (s t : Sel) (a b : String), s ≠ t → ∀ r ∈ scanSel s a baseUrl nodes,
      ∀ r' ∈ scanSel t b baseUrl nodes, r.idx ≠ r'.idx :=
    fun s t a b hst r hr r' hr' => scanSel_cross_ne s t hst a b baseUrl nodes r r' hr hr'
  apply List.pairwise_append.mpr
  refine ⟨W _ _, ?_, ?_⟩
  · apply List.pairwise_append.mpr
    refine ⟨W _ _, ?_, ?_⟩
    · apply List.pairwise_append.mpr
      exact ⟨W _ _, W _ _,
        fun r hr r' hr' => X .linkCanonical .script _ _ (by decide) r hr r' hr'⟩
    · intro r hr r' hr'
      rcases List.mem_append.mp hr' with h | h
      · exact X .linkStylesheet .linkCanonical _ _ (by decide) r hr r' h
      · exact X .linkStylesheet .script _ _ (by decide) r hr r' h
  · intro r hr r' hr'
    rcases List.mem_append.mp hr' with h | h
    · exact X .img .linkStylesheet _ _ (by decide) r hr r' h
    · rcases List.mem_append.mp h with h2 | h2
      · exact X .img .linkCanonical _ _ (by decide) r hr r' h2
      · exact X .img .script _ _ (by decide) r hr r' h2

/-- Every scanned reference points at an existing element that carries the
reference's attribute value, and is classified local. -/
theorem scanResources_mem_props (nodes : List Node) (baseUrl : String) (r : Resource)
    (hr : r ∈ scanResources nodes baseUrl) :
    ∃ e, nodes[r.idx]? = some (.elem e) ∧ getAttr e r.attrName = some r.url ∧
      r.url ≠ "" ∧ isLocalResource r.url baseUrl = true := by
  rw [scanResources_eq] at hr
  rcases List.mem_append.mp hr with h | h
  · rcases scanSel_mem_props _ _ _ _ _ h with ⟨e, h1, _, h3, h4, h5⟩
    exact ⟨e, h1, h3, h4, h5⟩
  rcases List.mem_append.mp h with h | h
  · rcases scanSel_mem_props _ _ _ _ _ h with ⟨e, h1, _, h3, h4, h5⟩
    exact ⟨e, h1, h3, h4, h5⟩
  rcases List.mem_append.mp h with h | h
  · rcases scanSel_mem_props _ _ _ _ _ h with ⟨e, h1, _, h3, h4, h5⟩
    exact ⟨e, h1, h3, h4, h5⟩
  · rcases scanSel_mem_props _ _ _ _ _ h with ⟨e, h1, _, h3, h4, h5⟩
    exact ⟨e, h1, h3, h4, h5⟩

/-- A reference classified local is resolvable. -/
theorem isLocalResource_resolves (res page : String)
    (h : isLocalResource res page = true) : (resolveURL res page).isSome = true := by
  unfold isLocalResource at h
  cases h1 : resolveURL res page with
  | some u => simp
  | none => rw [h1] at h; simp at h

/-! ## Lemmas: lists -/

theorem length_filterMap_of_isSome {α β : Type} (f : α → Option β) :
    ∀ l : List α, (∀ x ∈ l, (f x).isSome = true) →
      (l.filterMap f).length = l.length := by
  intro l
  induction l with
  | nil => intro _; rfl
  | cons x l ih =>
    intro h
    rcases Option.isSome_iff_exists.mp (h x (List.mem_cons_self x l)) with ⟨b, hb⟩
    rw [List.filterMap_cons, hb]
    simp only [List.length_cons]
    rw [ih (fun y hy => h y (List.mem_cons_of_mem x hy))]

theorem length_filterMap_eq_length_filter {α β : Type} (f : α → Option β) :
    ∀ l : List α,
      (l.filterMap f).length = (l.filter (fun x => (f x).isSome)).length := by
  intro l
  induction l with
  | nil => rfl
  | cons x l ih =>
    rw [List.filterMap_cons, List.filter_cons]
    cases hb : f x with
    | none => simpa [hb] using ih
    | some b => simpa [hb] using ih

theorem mem_split_pairwise {α : Type} {R : α → α → Prop} {l : List α} {x : α}
    (hx : x ∈ l) (hp : l.Pairwise R) :
    ∃ l1 l2, l = l1 ++ x :: l2 ∧ ∀ y ∈ l2, R x y := by
  rcases List.append_of_mem hx with ⟨l1, l2, rfl⟩
  refine ⟨l1, l2, rfl, ?_⟩
  have hc := (List.pairwise_append.mp hp).2.1
  exact (List.pairwise_cons.mp hc).1

/-! ## Claim theorems -/

/-- C9: `validateOutputDirectory` checks existence, then writability, then
directory-type, in that fixed order, so the reported failure code is the
first failing check: a nonexistent path always fails with `ENOENT`, an
existing unwritable path with `EACCES`, and an existing writable
non-directory with `ENOTDIR`. -/
theorem validateOutputDirectory_check_order (d : DirStatus) :
    (d.present = false → validateOutputDirectory d = .error .enoent) ∧
    (d.present = true → d.writable = false →
      validateOutputDirectory d = .error .eacces) ∧
    (d.present = true → d.writable = true → d.isDir = false →
      validateOutputDirectory d = .error .enotdir) ∧
    (d.present = true → d.writable = true → d.isDir = true →
      validateOutputDirectory d = .ok ()) := by
  rcases d with ⟨p, w, dir⟩
  cases p <;> cases w <;> cases dir <;> simp [validateOutputDirectory]

/-- Witness for C9 at the four concrete directory states. -/
theorem validateOutputDirectory_check_order_witness :
    validateOutputDirectory ⟨false, false, false⟩ = .error .enoent ∧
    validateOutputDirectory ⟨true, false, false⟩ = .error .eacces ∧
    validateOutputDirectory ⟨true, true, false⟩ = .error .enotdir ∧
    validateOutputDirectory ⟨true, true, true⟩ = .ok () :=
  ⟨(validateOutputDirectory_check_order ⟨false, false, false⟩).1 rfl,
   (validateOutputDirectory_check_order ⟨true, false, false⟩).2.1 rfl rfl,
   (validateOutputDirectory_check_order ⟨true, true, false⟩).2.2.1 rfl rfl rfl,
   (validateOutputDirectory_check_order ⟨true, true, true⟩).2.2.2 rfl rfl rfl⟩

/-- C4 (counterexample): contrary to the claim's "nothing is stripped from
the base name before appending", `getLocalFileName` strips the trailing
hyphenated extension: for `/image.png` on `https://example.com/page` the
code yields `example-com-image.png`, the claim's description
(`specResourceFileName`) yields `example-com-image-png.png`. -/
theorem getLocalFileName_strips_counterexample :
    getLocalFileName "/image.png" pageBase = some "example-com-image.png" ∧
    specResourceFileName "/image.png" pageBase = some "example-com-image-png.png" ∧
    getLocalFileName "/image.png" pageBase ≠ specResourceFileName "/image.png" pageBase := by
  decide

/-- C4 (amended): `getLocalFileName` agrees everywhere with the amended
description: base name of the resolved absolute URL, extension from the
resolved path's final segment (defaulting to `.html`), with a trailing
hyphenated copy of the extension stripped from the base name before the
extension is appended. -/
theorem getLocalFileName_amended (resourceUrl baseUrl : String) :
    getLocalFileName resourceUrl baseUrl = amendedResourceFileName resourceUrl baseUrl := by
  unfold getLocalFileName amendedResourceFileName
  cases resolveURL resourceUrl baseUrl with
  | none => rfl
  | some u =>
    dsimp only
    split <;> rfl

/-- C7: `isLocalResource` returns `true` iff the resource URL resolved
against the page URL has a host equal to the page URL's host; an
unresolvable resource URL yields `false` rather than an error, and every
reference selected by the scan (hence every reference that is downloaded
or rewritten) is one the classifier marked local. -/
theorem isLocalResource_host_equality :
    (∀ res page, isLocalResource res page = true ↔
      ∃ r p, resolveURL res page = some r ∧ parseURL page = some p ∧
        r.host = p.host) ∧
    (∀ res page, resolveURL res page = none → isLocalResource res page = false) ∧
    (∀ nodes base r, r ∈ scanResources nodes base →
      isLocalResource r.url base = true) := by
  refine ⟨?_, ?_, ?_⟩
  · intro res page
    constructor
    · intro h
      unfold isLocalResource at h
      cases h1 : resolveURL res page with
      | none => rw [h1] at h; simp at h
      | some r =>
        cases h2 : parseURL page with
        | none => rw [h1, h2] at h; simp at h
        | some p =>
          rw [h1, h2] at h
          exact ⟨r, p, rfl, rfl, by simpa using h⟩
    · rintro ⟨r, p, h1, h2, h3⟩
      unfold isLocalResource
      rw [h1, h2]
      simpa using h3
  · intro res page h
    unfold isLocalResource
    rw [h]
  · intro nodes base r hr
    rcases scanResources_mem_props nodes base r hr with ⟨e, _, _, _, hloc⟩
    exact hloc

/-- Witness for C7: a same-host reference classifies local (and is indeed
scanned), an unresolvable `mailto:` reference classifies not-local. -/
theorem isLocalResource_host_equality_witness :
    isLocalResource "/a.png" pageBase = true ∧
    isLocalResource "mailto:x@y" pageBase = false :=
  ⟨isLocalResource_host_equality.2.2 oneImgDoc pageBase
      ⟨0, "src", "/a.png"⟩ (by decide),
   isLocalResource_host_equality.2.1 "mailto:x@y" pageBase (by decide)⟩

/-- C6: an invalid output directory (missing, unwritable, or not a
directory) makes `pageLoader` fail with the corresponding
`FileSystemError` (the spec's `InvalidOutputTarget`) and leaves every
effect unperformed — in particular no root-page request is issued — and in
every run whatsoever the root fetch only happens after output-directory
validation succeeded. -/
theorem pageLoader_validation_precedes_fetch :
    (∀ url outputDir w c, parseURL url ≠ none →
      validateOutputDirectory w.dir = .error c →
      pageLoader url outputDir w = ⟨.error (.fsError c), emptyLog⟩) ∧
    (∀ url outputDir w, (pageLoader url outputDir w).log.rootFetchAttempted = true →
      validateOutputDirectory w.dir = .ok ()) := by
  constructor
  · intro url outputDir w c hp hv
    unfold pageLoader
    cases h1 : parseURL url with
    | none => exact absurd h1 hp
    | some u => rw [hv]
  · intro url outputDir w h
    unfold pageLoader at h
    cases h1 : parseURL url with
    | none => rw [h1] at h; simp [emptyLog] at h
    | some u =>
      rw [h1] at h
      cases h2 : validateOutputDirectory w.dir with
      | error c => rw [h2] at h; simp [emptyLog] at h
      | ok v => cases v; rfl

/-- Witness for C6: a nonexistent output directory aborts the run with
`ENOENT` before any network or filesystem effect. -/
theorem pageLoader_validation_precedes_fetch_witness :
    pageLoader pageBase "/tmp" ⟨⟨false, true, true⟩, .ok "", alwaysOk, "/"⟩ =
      ⟨.error (.fsError .enoent), emptyLog⟩ :=
  pageLoader_validation_precedes_fetch.1 pageBase "/tmp"
    ⟨⟨false, true, true⟩, .ok "", alwaysOk, "/"⟩ .enoent (by decide) (by decide)

/-- C5: a failing root-page fetch (HTTP error status or transport error)
makes `pageLoader` raise the corresponding fatal `NetworkError` (the
spec's `DocumentFetchFailed`), with no HTML file written, no resources
directory created, and no resource fetched. -/
theorem pageLoader_root_fetch_failure_fatal (url outputDir : String) (w : World)
    (code : String) (status : Option Nat)
    (hp : parseURL url ≠ none)
    (hv : validateOutputDirectory w.dir = .ok ())
    (hf : rootFailCode w.root = some (code, status)) :
    pageLoader url outputDir w =
      ⟨.error (.network code status), { emptyLog with rootFetchAttempted := true }⟩ := by
  unfold pageLoader
  cases h1 : parseURL url with
  | none => exact absurd h1 hp
  | some u =>
    rw [hv]
    cases hw : w.root with
    | ok html => rw [hw] at hf; simp [rootFailCode] at hf
    | httpError s =>
      rw [hw] at hf
      simp only [rootFailCode, Option.some.injEq, Prod.mk.injEq] at hf
      rw [← hf.1, ← hf.2]
      rfl
    | hostNotFound =>
      rw [hw] at hf
      simp only [rootFailCode, Option.some.injEq, Prod.mk.injEq] at hf
      rw [← hf.1, ← hf.2]
      rfl
    | connRefused =>
      rw [hw] at hf
      simp only [rootFailCode, Option.some.injEq, Prod.mk.injEq] at hf
      rw [← hf.1, ← hf.2]
      rfl
    | timedOut =>
      rw [hw] at hf
      simp only [rootFailCode, Option.some.injEq, Prod.mk.injEq] at hf
      rw [← hf.1, ← hf.2]
      rfl
    | transportOther =>
      rw [hw] at hf
      simp only [rootFailCode, Option.some.injEq, Prod.mk.injEq] at hf
      rw [← hf.1, ← hf.2]
      rfl

/-- Witness for C5: an HTTP 404 on the root page yields the fatal
`NetworkError HTTP_ERROR 404` with an empty effect log apart from the
attempted fetch. -/
theorem pageLoader_root_fetch_failure_fatal_witness :
    pageLoader pageBase "/tmp" notFoundWorld =
      ⟨.error (.network "HTTP_ERROR" (some 404)),
       { emptyLog with rootFetchAttempted := true }⟩ :=
  pageLoader_root_fetch_failure_fatal pageBase "/tmp" notFoundWorld
    "HTTP_ERROR" (some 404) (by decide) (by decide) (by decide)

/-- C3 (code bug): the URL validation of `pageLoader` is only
`new URL(url)`, which accepts any parseable absolute URL; for
`ftp://example.com` — which the claim, the spec and the repository's own
test (`should throw error for invalid URL`, tests importing
`src/pageLoader.js`) require to fail with `INVALID_URL` — the run proceeds
past validation and issues the root-page request. -/
theorem pageLoader_accepts_nonhttp_scheme_bug :
    parseURL "ftp://example.com" ≠ none ∧
    (pageLoader "ftp://example.com" "/tmp" okWorld).log.rootFetchAttempted = true ∧
    (pageLoader "ftp://example.com" "/tmp" okWorld).result ≠ .error .invalidUrl := by
  decide

/-- C2 (code bug): for a fetched document with zero local references the
code does return early without creating a resources directory, but it
persists cheerio's re-serialization `$.html()` of the parsed document, not
the received bytes: fetching an empty body persists the
`<html><head></head><body></body></html>` skeleton, while the claim (and
the repository's own test `should handle empty HTML page`) requires the
persisted bytes to equal the fetched bytes. -/
theorem pageLoader_zero_resources_serialization_bug :
    (pageLoader "https://example.com/empty" "/tmp" okWorld).log.mkdirCalled = false ∧
    (pageLoader "https://example.com/empty" "/tmp" okWorld).log.written = [] ∧
    (pageLoader "https://example.com/empty" "/tmp" okWorld).log.htmlWritten =
      some ("/tmp/example-com-empty.html",
        "<html><head></head><body></body></html>") ∧
    ("<html><head></head><body></body></html>" : String) ≠ "" := by
  decide

/-- C8 (code bug): the rewritten attribute value is produced by
`path.join(resourcesDir, localFileName)`, which joins with the host
platform's separator: under the Windows separator `\` the attribute
becomes `example-com-page_files\example-com-a.png`, not the
forward-slash form the claim requires on every host OS; the
forward-slash form is produced only under the POSIX separator. -/
theorem processHtml_rewrite_uses_platform_separator_bug :
    getAttrAt (processHtmlNodes oneImgDoc pageBase "example-com-page_files" "\\"
      alwaysOk).nodes 0 "src" =
      some "example-com-page_files\\example-com-a.png" ∧
    getAttrAt (processHtmlNodes oneImgDoc pageBase "example-com-page_files" "/"
      alwaysOk).nodes 0 "src" =
      some "example-com-page_files/example-com-a.png" ∧
    ("example-com-page_files\\example-com-a.png" : String) ≠
      "example-com-page_files/example-com-a.png" := by
  decide

/-- C10: the scan deduplicates nothing: the fetched URLs and written files
are one-per-scanned-reference (`filterMap` over the scan list, duplicates
included), and on the concrete document with two `<img src="/a.png">`
elements both occurrences fetch the same URL, both write the same derived
file name, and both attributes are rewritten to the same local path. -/
theorem processHtml_no_dedup :
    (∀ nodes baseUrl resourcesDir sep op,
      (processHtmlNodes nodes baseUrl resourcesDir sep op).attempts =
        (scanResources nodes baseUrl).filterMap
          (fun r => (resolveURL r.url baseUrl).map JSUrl.toStr) ∧
      (processHtmlNodes nodes baseUrl resourcesDir sep op).written =
        (scanResources nodes baseUrl).filterMap
          (fun r => downloadResource r.url baseUrl op)) ∧
    (processHtmlNodes dupImgDoc pageBase "example-com-page_files" "/"
        alwaysOk).attempts =
      ["https://example.com/a.png", "https://example.com/a.png"] ∧
    (processHtmlNodes dupImgDoc pageBase "example-com-page_files" "/"
        alwaysOk).written =
      ["example-com-a.png", "example-com-a.png"] ∧
    getAttrAt (processHtmlNodes dupImgDoc pageBase "example-com-page_files" "/"
        alwaysOk).nodes 0 "src" =
      some "example-com-page_files/example-com-a.png" ∧
    getAttrAt (processHtmlNodes dupImgDoc pageBase "example-com-page_files" "/"
        alwaysOk).nodes 1 "src" =
      some "example-com-page_files/example-com-a.png" := by
  refine ⟨?_, by decide, by decide, by decide, by decide⟩
  intro nodes baseUrl resourcesDir sep op
  unfold processHtmlNodes
  by_cases h : (scanResources nodes baseUrl).isEmpty = true
  · rw [if_pos h]
    rw [List.isEmpty_iff.mp h]
    exact ⟨rfl, rfl⟩
  · rw [if_neg h]
    refine ⟨rfl, ?_⟩
    exact List.filterMap_map _ _ _

/-- C1 (counterexample): with two identical successful references the
document gains two rewritten attributes (K = 2 successes) but the
resources directory holds a single file, so "the resources directory
contains exactly K files" fails. -/
theorem processHtml_duplicate_refs_counterexample :
    (scanResources dupImgDoc pageBase).length = 2 ∧
    ((scanResources dupImgDoc pageBase).filter
      (fun r => (downloadResource r.url pageBase alwaysOk).isSome)).length = 2 ∧
    (dirContents (processHtmlNodes dupImgDoc pageBase "example-com-page_files" "/"
      alwaysOk).written).length = 1 ∧
    (1 : Nat) ≠ 2 := by
  decide

/-- C1 (amended): for every parsed document, scanning yields the local
references (N of them); every reference is attempted regardless of sibling
failures (the attempt list has length N); every successful reference's
attribute is rewritten to `resourcesDir/localFileName`, every failed
reference's attribute keeps its original value, and attributes not scanned
are untouched; the files written are exactly the derived names of the
successful references (K of them, in launch order), so the resources
directory holds exactly K files whenever those K derived names are
pairwise distinct — duplicate references or derived-name collisions yield
fewer (this last point is the amendment). -/
theorem processHtml_partial_failure_amended (nodes : List Node)
    (baseUrl resourcesDir sep : String) (op : String → Bool) :
    ((processHtmlNodes nodes baseUrl resourcesDir sep op).attempts.length =
      (scanResources nodes baseUrl).length) ∧
    (∀ r ∈ scanResources nodes baseUrl, ∀ n,
      downloadResource r.url baseUrl op = some n →
      getAttrAt (processHtmlNodes nodes baseUrl resourcesDir sep op).nodes
        r.idx r.attrName = some (pathJoin sep resourcesDir n)) ∧
    (∀ r ∈ scanResources nodes baseUrl,
      downloadResource r.url baseUrl op = none →
      getAttrAt (processHtmlNodes nodes baseUrl resourcesDir sep op).nodes
        r.idx r.attrName = getAttrAt nodes r.idx r.attrName) ∧
    (∀ i a, (∀ r ∈ scanResources nodes baseUrl, ¬(r.idx = i ∧ r.attrName = a)) →
      getAttrAt (processHtmlNodes nodes baseUrl resourcesDir sep op).nodes i a =
        getAttrAt nodes i a) ∧
    ((processHtmlNodes nodes baseUrl resourcesDir sep op).written =
      (scanResources nodes baseUrl).filterMap
        (fun r => downloadResource r.url baseUrl op)) ∧
    ((dirContents (processHtmlNodes nodes baseUrl resourcesDir sep op).written).length ≤
      ((scanResources nodes baseUrl).filter
        (fun r => (downloadResource r.url baseUrl op).isSome)).length) ∧
    (((scanResources nodes baseUrl).filterMap
        (fun r => downloadResource r.url baseUrl op)).Nodup →
      (dirContents (processHtmlNodes nodes baseUrl resourcesDir sep op).written).length =
        ((scanResources nodes baseUrl).filter
          (fun r => (downloadResource r.url baseUrl op).isSome)).length) := by
  have hwr : (processHtmlNodes nodes baseUrl resourcesDir sep op).written =
      (scanResources nodes baseUrl).filterMap
        (fun r => downloadResource r.url baseUrl op) := by
    unfold processHtmlNodes
    by_cases h : (scanResources nodes baseUrl).isEmpty = true
    · rw [if_pos h, List.isEmpty_iff.mp h]
      rfl
    · rw [if_neg h]
      exact List.filterMap_map _ _ _
  have hK : ((scanResources nodes baseUrl).filterMap
      (fun r => downloadResource r.url baseUrl op)).length =
      ((scanResources nodes baseUrl).filter
        (fun r => (downloadResource r.url baseUrl op).isSome)).length :=
    length_filterMap_eq_length_filter _ _
  refine ⟨?_, ?_, ?_, ?_, hwr, ?_, ?_⟩
  · unfold processHtmlNodes
    by_cases h : (scanResources nodes baseUrl).isEmpty = true
    · rw [if_pos h, List.isEmpty_iff.mp h]
      rfl
    · rw [if_neg h]
      refine length_filterMap_of_isSome _ _ (fun r hr => ?_)
      rcases scanResources_mem_props nodes baseUrl r hr with ⟨e, _, _, _, hloc⟩
      rcases Option.isSome_iff_exists.mp
        (isLocalResource_resolves r.url baseUrl hloc) with ⟨u, hu⟩
      rw [hu]
      rfl
  · intro r hr n hdl
    rcases scanResources_mem_props nodes baseUrl r hr with ⟨e, he, _, _, _⟩
    have hne : ¬((scanResources nodes baseUrl).isEmpty = true) := by
      intro h
      rw [List.isEmpty_iff.mp h] at hr
      simp at hr
    unfold processHtmlNodes
    rw [if_neg hne]
    dsimp only
    rcases mem_split_pairwise hr (scanResources_pairwise nodes baseUrl) with
      ⟨l1, l2, heq, h2⟩
    rw [heq, List.map_append, List.map_cons]
    rw [hdl]
    refine applyOutcomes_hit resourcesDir sep r n _ _ _ e he (fun p hp => ?_)
    rcases List.mem_map.mp hp with ⟨y, hy, rfl⟩
    exact (h2 y hy).symm
  · intro r hr hdl
    unfold processHtmlNodes
    by_cases hne : (scanResources nodes baseUrl).isEmpty = true
    · rw [if_pos hne]
    · rw [if_neg hne]
      dsimp only
      refine applyOutcomes_untouched resourcesDir sep r.idx r.attrName _ _
        (fun p hp => ?_)
      rcases List.mem_map.mp hp with ⟨y, hy, rfl⟩
      by_cases hyr : y = r
      · subst hyr
        exact Or.inr (Or.inr hdl)
      · exact Or.inl ((List.Pairwise.forall (fun x z h => Ne.symm h)
          (scanResources_pairwise nodes baseUrl) hy hr hyr))
  · intro i a hno
    unfold processHtmlNodes
    by_cases hne : (scanResources nodes baseUrl).isEmpty = true
    · rw [if_pos hne]
    · rw [if_neg hne]
      dsimp only
      refine applyOutcomes_untouched resourcesDir sep i a _ _ (fun p hp => ?_)
      rcases List.mem_map.mp hp with ⟨y, hy, rfl⟩
      rcases not_and_or.mp (hno y hy) with h | h
      · exact Or.inl h
      · exact Or.inr (Or.inl h)
  · rw [hwr]
    exact le_of_le_of_eq
      (List.Sublist.length_le (List.dedup_sublist _)) hK
  · intro hnd
    rw [hwr]
    unfold dirContents
    rw [List.Nodup.dedup hnd]
    exact hK

/-- Witness for C1 (amended) on the duplicate-image document: the first
scanned reference succeeds and its attribute is rewritten to the joined
local path. -/
theorem processHtml_partial_failure_witness :
    getAttrAt (processHtmlNodes dupImgDoc pageBase "example-com-page_files" "/"
      alwaysOk).nodes 0 "src" =
      some (pathJoin "/" "example-com-page_files" "example-com-a.png") :=
  (processHtml_partial_failure_amended dupImgDoc pageBase "example-com-page_files" "/"
    alwaysOk).2.1 ⟨0, "src", "/a.png"⟩ (by decide) "example-com-a.png" (by decide)
